import Mathlib

/-!
Verification of the text-editing and display core of the `editor` repository
(`editor/__main__.py`).  Python strings are modelled as `List Char` (a Python 2
string is a sequence of code units), the line buffer as a list of such lines,
and each method of `Buffer` / `EditorGUI` as a Lean function translated
statement by statement from the source.  Fallible operations (those that raise
`ValueError` / fail an `assert`) return `Option` / a `raised` flag.
-/

namespace Editor

/-- Model of Python `text.split('\n')`: split a character sequence on newline
characters.  Always returns at least one piece; `split_nl [] = [[]]`. -/
def split_nl : List Char → List (List Char)
  | [] => [[]]
  | c :: cs =>
    if c = '\n' then [] :: split_nl cs
    else (c :: (split_nl cs).headI) :: (split_nl cs).tail

/-- The basic data structure for editable text (`class Buffer`): an ordered
sequence of lines. -/
structure Buffer where
  lines : List (List Char)
deriving DecidableEq, Repr

/-- `Buffer.__init__`: create a new Buffer from text (default empty). -/
def Buffer.init (text : List Char := []) : Buffer :=
  ⟨split_nl text⟩

/-- `Buffer.get_lines`: return the list of lines in the buffer (the Python
method returns a copy, which is equal as a value). -/
def Buffer.get_lines (b : Buffer) : List (List Char) :=
  b.lines

/-- `Buffer._check_point`: `true` iff the given row and col are a valid point
(the Python method raises `ValueError` exactly when this is `false`).
Arguments are `Int` because Python callers may pass negative numbers. -/
def Buffer.check_point (b : Buffer) (row col : Int) : Bool :=
  if row < 0 || row > (b.lines.length : Int) - 1 then false
  else
    let cur_row := b.lines.getD row.toNat []
    !(col < 0 || col > (cur_row.length : Int))

/-- `Buffer.set_text`, executed statement by statement: the two
`_check_point` calls run before any mutation, so the pair
`(resulting state, raised?)` has the original lines whenever `raised?` is
true.  The final mutation models the Python slice assignment
`self._lines[row1:row2+1] = line.split('\n')` for in-range indices, which for
`row2 + 1 < row1` inserts at position `row1`, hence the `max`. -/
def Buffer.set_text_run (b : Buffer) (row1 col1 row2 col2 : Int)
    (text : List Char) : Buffer × Bool :=
  if !(b.check_point row1 col1) then (b, true)
  else if !(b.check_point row2 col2) then (b, true)
  else
    let line := (b.lines.getD row1.toNat []).take col1.toNat ++ text ++
      (b.lines.getD row2.toNat []).drop col2.toNat
    (⟨b.lines.take row1.toNat ++ split_nl line ++
      b.lines.drop (max row1.toNat (row2.toNat + 1))⟩, false)

/-- `Buffer.set_text` as a partial-function view: `none` when the Python
method raises `ValueError`, otherwise the updated buffer. -/
def Buffer.set_text (b : Buffer) (row1 col1 row2 col2 : Int)
    (text : List Char) : Option Buffer :=
  let r := b.set_text_run row1 col1 row2 col2 text
  if r.2 then none else some r.1

/-- Validity of a position as the spec words it: row in `[0, lineCount)` and
col in `[0, len(lineAtRow)]`. -/
def valid_pos (b : Buffer) (row col : Int) : Prop :=
  0 ≤ row ∧ row < (b.lines.length : Int) ∧ 0 ≤ col ∧
    col ≤ ((b.lines.getD row.toNat []).length : Int)

instance (b : Buffer) (row col : Int) : Decidable (valid_pos b row col) := by
  unfold valid_pos; infer_instance

theorem check_point_iff (b : Buffer) (row col : Int) :
    b.check_point row col = true ↔ valid_pos b row col := by
  unfold Buffer.check_point valid_pos
  by_cases h : (row < 0 || row > (b.lines.length : Int) - 1) = true
  · rw [if_pos h]
    simp only [Bool.or_eq_true, decide_eq_true_eq] at h
    simp only [Bool.false_eq_true, false_iff]
    rintro ⟨h1, h2, -, -⟩
    omega
  · rw [if_neg h]
    simp only [Bool.or_eq_true, decide_eq_true_eq, not_or, not_lt] at h
    simp only [Bool.not_eq_true', Bool.or_eq_false_iff, decide_eq_false_iff_not,
      not_lt]
    constructor
    · rintro ⟨hc1, hc2⟩
      exact ⟨h.1, by omega, hc1, hc2⟩
    · rintro ⟨-, -, hc1, hc2⟩
      exact ⟨hc1, hc2⟩

theorem split_nl_ne_nil (l : List Char) : split_nl l ≠ [] := by
  cases l with
  | nil => simp [split_nl]
  | cons c cs => by_cases h : c = '\n' <;> simp [split_nl, h]

theorem split_nl_cons (c : Char) (cs : List Char) :
    split_nl (c :: cs) =
      if c = '\n' then [] :: split_nl cs
      else (c :: (split_nl cs).headI) :: (split_nl cs).tail := rfl

theorem split_nl_no_nl (l : List Char) (h : '\n' ∉ l) : split_nl l = [l] := by
  induction l with
  | nil => rfl
  | cons c cs ih =>
    simp only [List.mem_cons, not_or] at h
    have hne : ¬(c = '\n') := fun hc => h.1 hc.symm
    rw [split_nl_cons, if_neg hne, ih h.2]
    rfl

theorem split_nl_append_left (a t : List Char) (h : '\n' ∉ a) :
    split_nl (a ++ t) = (a ++ (split_nl t).headI) :: (split_nl t).tail := by
  induction a with
  | nil =>
    rcases he : split_nl t with _ | ⟨l, ls⟩
    · exact absurd he (split_nl_ne_nil t)
    · simp [he]
  | cons c a' ih =>
    simp only [List.mem_cons, not_or] at h
    have hne : ¬(c = '\n') := fun hc => h.1 hc.symm
    rw [List.cons_append, split_nl_cons, if_neg hne, ih h.2]
    simp

theorem split_nl_append_right (t c : List Char) (h : '\n' ∉ c) :
    split_nl (t ++ c) =
      (split_nl t).dropLast ++ [(split_nl t).getLastD [] ++ c] := by
  induction t with
  | nil => simp [split_nl_no_nl c h, split_nl]
  | cons ch t' ih =>
    rcases he : split_nl t' with _ | ⟨l, ls⟩
    · exact absurd he (split_nl_ne_nil t')
    rw [he] at ih
    rw [List.cons_append, split_nl_cons, split_nl_cons, he, ih]
    by_cases hch : ch = '\n'
    · rw [if_pos hch, if_pos hch]
      cases ls with
      | nil => simp
      | cons l2 ls2 => simp [List.dropLast_cons₂, List.getLastD_cons]
    · rw [if_neg hch, if_neg hch]
      cases ls with
      | nil => simp
      | cons l2 ls2 => simp [List.dropLast_cons₂, List.getLastD_cons]

theorem set_text_some (b : Buffer) (row1 col1 row2 col2 : Nat) (text : List Char)
    (h1r : row1 < b.lines.length) (h1c : col1 ≤ (b.lines.getD row1 []).length)
    (h2r : row2 < b.lines.length) (h2c : col2 ≤ (b.lines.getD row2 []).length)
    (hord : row1 ≤ row2) :
    b.set_text (row1 : Int) (col1 : Int) (row2 : Int) (col2 : Int) text =
      some ⟨b.lines.take row1 ++
        split_nl ((b.lines.getD row1 []).take col1 ++ text ++
          (b.lines.getD row2 []).drop col2) ++
        b.lines.drop (row2 + 1)⟩ := by
  have hc1 : b.check_point (row1 : Int) (col1 : Int) = true := by
    rw [check_point_iff]
    refine ⟨by omega, by omega, by omega, ?_⟩
    rw [Int.toNat_natCast]
    omega
  have hc2 : b.check_point (row2 : Int) (col2 : Int) = true := by
    rw [check_point_iff]
    refine ⟨by omega, by omega, by omega, ?_⟩
    rw [Int.toNat_natCast]
    omega
  unfold Buffer.set_text Buffer.set_text_run
  simp only [hc1, hc2, Bool.not_true, Bool.false_eq_true, if_false,
    Int.toNat_natCast]
  rw [max_eq_right (by omega)]

/-- Chunking loop with an explicit fuel counter; every step consumes at least
one unit, so fuel equal to the list length is always enough and the middle
case is never reached from `chunks1`. -/
def chunksGo (w : Nat) : Nat → List Char → List (List Char)
  | _, [] => []
  | 0, l => [l]
  | fuel + 1, c :: cs => (c :: cs.take w) :: chunksGo w fuel (cs.drop w)

/-- Helper for `wrap_text`: split a character list into consecutive chunks of
`w + 1` units each, as the Python loop `for i in xrange(0, len(text), width)`
does with `width = w + 1`. -/
def chunks1 (w : Nat) (l : List Char) : List (List Char) :=
  chunksGo w l.length l

/-- The inner generator `wrap_text` of `EditorGUI._get_wrapped_lines`: wrap
text into a list of chunks of at most `width` units; empty text yields one
empty chunk.  The Python `xrange` raises `ValueError` on `width = 0`, so the
model is meaningful only for `width ≥ 1`, which every theorem assumes. -/
def wrap_text (text : List Char) (width : Nat) : List (List Char) :=
  if text.isEmpty then [[]] else chunks1 (width - 1) text

/-- Lowercase hex digit, as in Python `hex`. -/
def hexChar (n : Nat) : Char :=
  if n < 10 then Char.ofNat (48 + n) else Char.ofNat (87 + n)

/-- Hex conversion loop with an explicit fuel counter. -/
def hexStrGo : Nat → Nat → List Char
  | 0, n => [hexChar n]
  | fuel + 1, n =>
    if n < 16 then [hexChar n]
    else hexStrGo fuel (n / 16) ++ [hexChar (n % 16)]

/-- Hex digit string of `n`, as produced by Python `hex(n)[2:]` for a
nonnegative `n`; fuel `n` bounds the number of divisions by 16, and the
zero-fuel fallback is only reached for `n < 16`, where it agrees with the
main case. -/
def hexStr (n : Nat) : List Char := hexStrGo n n

/-- Per-character expansion done by the loop body of
`EditorGUI._convert_nonprinting`: tab becomes the four-cell marker, other
nonprinting units (code below 32 or above 126) become a bracketed hex marker,
printable units pass through. -/
def convert_char (c : Char) : List Char :=
  if c = '\t' then ['-', '>', ' ', ' ']
  else if c.toNat < 32 ∨ c.toNat > 126 then '<' :: (hexStr c.toNat ++ ['>'])
  else [c]

/-- `EditorGUI._convert_nonprinting`: replace nonprinting characters in text
(`''.join` of the per-character pieces). -/
def convert_nonprinting (text : List Char) : List Char :=
  (text.map convert_char).flatten

/-- `EditorGUI._get_wrapped_lines`: the wrapped lines for the given line
number (optionally after nonprinting conversion).  The Python code indexes
`get_lines()[line_num]`; the model uses `getD` with an empty default, and all
theorems keep `line_num` within bounds as the callers do. -/
def get_wrapped_lines (b : Buffer) (line_num width : Nat)
    (conv : Bool := true) : List (List Char) :=
  let line := b.get_lines.getD line_num []
  let line := if conv then convert_nonprinting line else line
  wrap_text line width

/-- `EditorGUI._get_num_wrapped_lines`: the number of rows the given line
wraps to. -/
def get_num_wrapped_lines (b : Buffer) (line_num width : Nat) : Nat :=
  (get_wrapped_lines b line_num width).length

/-- Sum of `wraps` over `k` consecutive line numbers starting at `a`. -/
def rowSumGo (wraps : Nat → Nat) : Nat → Nat → Nat
  | _, 0 => 0
  | a, k + 1 => wraps a + rowSumGo wraps (a + 1) k

/-- Total wrapped-row count of lines `a..=b` (the sum over `range(a, b + 1)`
computed by `verify` inside `_scroll_bottom_to_top`). -/
def rowSum (wraps : Nat → Nat) (a b : Nat) : Nat :=
  rowSumGo wraps a (b + 1 - a)

/-- The `while` loop of `EditorGUI._scroll_bottom_to_top`, with the loop
counter `n = next_top + 1` (so `n = 0` encodes `next_top = -1`); `top` and
`d` (`distance`) are the other two loop variables.  One unfolding performs
one iteration of `while next_top >= 0 and distance <= height`. -/
def sbttGo (wraps : Nat → Nat) (height : Nat) : Nat → Nat → Nat → Nat
  | 0, top, _ => top
  | n + 1, top, d =>
    if d ≤ height then sbttGo wraps height n n (d + wraps (n - 1)) else top

/-- `EditorGUI._scroll_bottom_to_top`: first visible line number so the
bottom line is visible.  The nested `verify` assertions are modelled by
returning `none` when they fail. -/
def scroll_bottom_to_top (b : Buffer) (bottom width height : Nat) :
    Option Nat :=
  let wraps := fun n => get_num_wrapped_lines b n width
  let top := sbttGo wraps height (bottom + 1) bottom (wraps bottom)
  if top ≤ bottom ∧ rowSum wraps top bottom ≤ height then some top else none

/-- `EditorGUI._scroll_to`: the new `self._scroll_top` after scrolling so the
line `line_num` is visible; `none` when `_scroll_bottom_to_top` fails its
assertion.  `scroll_top` is an `Int` exactly like the Python attribute. -/
def scroll_to (b : Buffer) (scroll_top : Int) (line_num width height : Nat) :
    Option Int :=
  (scroll_bottom_to_top b line_num width height).map (fun (lowest_top : Nat) =>
    if (line_num : Int) < scroll_top then (line_num : Int)
    else if scroll_top < (lowest_top : Int) then (lowest_top : Int)
    else scroll_top)

/-- The cursor-cell computation of `EditorGUI._draw_text` (the
`line_num == self._row` branch): wrap the raw line, join it back, take the
prefix before the cursor column, expand nonprinting units, and derive the
screen cell by division and remainder (Python 2 `/` on ints is floor
division).  `cur_y` is the screen row where the line starts. -/
def cursor_cell (b : Buffer) (row col left gutter_width line_width cur_y :
    Nat) : Nat × Nat :=
  let lines := get_wrapped_lines b row line_width false
  let real_col := (convert_nonprinting (lines.flatten.take col)).length
  (cur_y + real_col / line_width, left + gutter_width + real_col % line_width)

theorem chunksGo_flatten (w fuel : Nat) (l : List Char)
    (h : l.length ≤ fuel) : (chunksGo w fuel l).flatten = l := by
  induction fuel generalizing l with
  | zero =>
    cases l with
    | nil => rfl
    | cons c cs => simp at h
  | succ fuel ih =>
    cases l with
    | nil => rfl
    | cons c cs =>
      simp only [chunksGo, List.flatten_cons]
      rw [ih (cs.drop w) (by simp only [List.length_drop]; simp at h; omega)]
      simp [List.take_append_drop]

theorem chunks1_flatten (w : Nat) (l : List Char) :
    (chunks1 w l).flatten = l :=
  chunksGo_flatten w l.length l le_rfl

theorem chunksGo_length_le (w fuel : Nat) (l : List Char)
    (h : l.length ≤ fuel) : ∀ seg ∈ chunksGo w fuel l, seg.length ≤ w + 1 := by
  induction fuel generalizing l with
  | zero =>
    cases l with
    | nil => simp [chunksGo]
    | cons c cs => simp at h
  | succ fuel ih =>
    cases l with
    | nil => simp [chunksGo]
    | cons c cs =>
      simp only [chunksGo]
      intro seg hseg
      rcases List.mem_cons.mp hseg with hh | hh
      · subst hh
        simp only [List.length_cons, List.length_take]
        omega
      · exact ih (cs.drop w)
          (by simp only [List.length_drop]; simp at h; omega) seg hh

theorem chunks1_length_le (w : Nat) (l : List Char) :
    ∀ seg ∈ chunks1 w l, seg.length ≤ w + 1 :=
  chunksGo_length_le w l.length l le_rfl

theorem wrap_text_flatten (text : List Char) (width : Nat) :
    (wrap_text text width).flatten = text := by
  unfold wrap_text
  by_cases h : text.isEmpty
  · rw [if_pos h, List.isEmpty_iff.mp h]; rfl
  · rw [if_neg h]; exact chunks1_flatten _ _

theorem wrap_text_ne_nil (text : List Char) (width : Nat) :
    wrap_text text width ≠ [] := by
  unfold wrap_text
  by_cases h : text.isEmpty
  · simp [h]
  · rw [if_neg h]
    cases text with
    | nil => simp at h
    | cons c cs => simp [chunks1, chunksGo]

/-- C4: for every line and every width ≥ 1, `wrap_text` returns at least one
segment, an empty line yields the single empty segment, the concatenation of
all segments is the original line, and no segment is longer than `width`
units. -/
theorem C4_wrap_segments (line : List Char) (width : Nat) (hw : 1 ≤ width) :
    wrap_text line width ≠ [] ∧
    wrap_text [] width = [[]] ∧
    (wrap_text line width).flatten = line ∧
    ∀ seg ∈ wrap_text line width, seg.length ≤ width := by
  refine ⟨wrap_text_ne_nil line width, rfl, wrap_text_flatten line width, ?_⟩
  unfold wrap_text
  by_cases h : line.isEmpty
  · simp [h]
  · rw [if_neg h]
    intro seg hseg
    have := chunks1_length_le (width - 1) line seg hseg
    omega

/-- C4 witness: the spec scenario — width 3 on line `abcdef` gives segments
`abc` and `def`, which satisfy all three wrap properties. -/
theorem C4_wrap_segments_witness :
    wrap_text ("abcdef").data 3 = [("abc").data, ("def").data] ∧
    (wrap_text ("abcdef").data 3 ≠ [] ∧
      wrap_text [] 3 = [[]] ∧
      (wrap_text ("abcdef").data 3).flatten = ("abcdef").data ∧
      ∀ seg ∈ wrap_text ("abcdef").data 3, seg.length ≤ 3) :=
  ⟨by decide, C4_wrap_segments ("abcdef").data 3 (by decide)⟩

/-- C5 counterexample: the DEL character (code 127) is not a tab, is outside
the printable range, and its expansion `<7f>` occupies 4 cells, not the fixed
3 cells the claim states. -/
theorem C5_counterexample :
    (Char.ofNat 127).toNat > 126 ∧ Char.ofNat 127 ≠ '\t' ∧
    convert_char (Char.ofNat 127) = ['<', '7', 'f', '>'] ∧
    (convert_char (Char.ofNat 127)).length ≠ 3 := by
  decide

theorem hexStrGo_base (fuel n : Nat) (h : n < 16) :
    hexStrGo fuel n = [hexChar n] := by
  cases fuel with
  | zero => rfl
  | succ f => simp only [hexStrGo]; rw [if_pos h]

theorem hexStr_base (n : Nat) (h : n < 16) : hexStr n = [hexChar n] :=
  hexStrGo_base n n h

theorem hexStr_two (n : Nat) (h1 : 16 ≤ n) (h2 : n ≤ 255) :
    hexStr n = [hexChar (n / 16), hexChar (n % 16)] := by
  obtain ⟨m, rfl⟩ : ∃ m, n = m + 1 := ⟨n - 1, by omega⟩
  unfold hexStr
  simp only [hexStrGo]
  rw [if_neg (by omega), hexStrGo_base m ((m + 1) / 16) (by omega)]
  rfl

/-- C5 amended: printable ASCII (code 32..126) passes through unchanged, tab
expands to the fixed 4-cell marker `->  `, and every other unit expands to a
bracketed lowercase-hex marker `<…>` whose width is 2 plus the number of hex
digits of the code — 3 cells exactly for codes below 16, 4 cells for codes
16..255 (and more for larger code points), not a fixed 3 cells. -/
theorem C5_convert_nonprinting_amended :
    (∀ c : Char, 32 ≤ c.toNat → c.toNat ≤ 126 → convert_char c = [c]) ∧
    (convert_char '\t' = ['-', '>', ' ', ' ']) ∧
    (∀ c : Char, (c.toNat < 32 ∨ c.toNat > 126) → c ≠ '\t' →
      convert_char c = '<' :: (hexStr c.toNat ++ ['>']) ∧
      (convert_char c).length = 2 + (hexStr c.toNat).length ∧
      (c.toNat < 16 → (convert_char c).length = 3) ∧
      (16 ≤ c.toNat → c.toNat ≤ 255 → (convert_char c).length = 4)) ∧
    (∀ text : List Char,
      convert_nonprinting text = (text.map convert_char).flatten) := by
  refine ⟨?_, by rw [convert_char]; decide, ?_, fun _ => rfl⟩
  · intro c h1 h2
    rw [convert_char, if_neg ?tab, if_neg (by omega)]
    case tab =>
      intro hc
      rw [hc] at h1
      exact absurd h1 (by decide)
  · intro c hrange htab
    have he : convert_char c = '<' :: (hexStr c.toNat ++ ['>']) := by
      rw [convert_char, if_neg htab, if_pos hrange]
    refine ⟨he, ?_, ?_, ?_⟩
    · rw [he]; simp; omega
    · intro h16
      rw [he, hexStr_base c.toNat h16]
      rfl
    · intro h16 h255
      rw [he, hexStr_two c.toNat h16 h255]
      rfl

/-- C5 amended witness: a printable character passes through, code 5 expands
to 3 cells, and code 127 expands to 4 cells. -/
theorem C5_convert_nonprinting_amended_witness :
    convert_char 'a' = ['a'] ∧
    (convert_char (Char.ofNat 5)).length = 3 ∧
    (convert_char (Char.ofNat 127)).length = 4 :=
  ⟨C5_convert_nonprinting_amended.1 'a' (by decide) (by decide),
   (C5_convert_nonprinting_amended.2.2.1 (Char.ofNat 5) (by decide)
      (by decide)).2.2.1 (by decide),
   (C5_convert_nonprinting_amended.2.2.1 (Char.ofNat 127) (by decide)
      (by decide)).2.2.2 (by decide) (by decide)⟩

/-- C8: for a rendered cursor line, the cursor cell equals
(`cur_y + expandedPrefixLen / width`,
 `left + gutter_width + expandedPrefixLen mod width`) where
`expandedPrefixLen` is the expanded length of the raw line's prefix before
the cursor column. -/
theorem C8_cursor_mapping (b : Buffer)
    (row col left gutter_width line_width cur_y : Nat)
    (hw : 1 ≤ line_width) :
    cursor_cell b row col left gutter_width line_width cur_y =
      (cur_y +
        (convert_nonprinting ((b.get_lines.getD row []).take col)).length /
          line_width,
       left + gutter_width +
        (convert_nonprinting ((b.get_lines.getD row []).take col)).length %
          line_width) := by
  unfold cursor_cell get_wrapped_lines
  simp only [if_neg (Bool.false_ne_true), wrap_text_flatten]

/-- C8 witness: a line `a TAB b` with the cursor at column 2 and wrap width 3
expands the prefix to 5 cells, so the cursor lands one row down at screen
column 4 + 2. -/
theorem C8_cursor_mapping_witness :
    cursor_cell (Buffer.mk [['a', '\t', 'b']]) 0 2 0 4 3 0 =
      (0 + (convert_nonprinting (((Buffer.mk
        [['a', '\t', 'b']]).get_lines.getD 0 []).take 2)).length / 3,
       0 + 4 + (convert_nonprinting (((Buffer.mk
        [['a', '\t', 'b']]).get_lines.getD 0 []).take 2)).length % 3) ∧
    cursor_cell (Buffer.mk [['a', '\t', 'b']]) 0 2 0 4 3 0 = (1, 6) :=
  ⟨C8_cursor_mapping (Buffer.mk [['a', '\t', 'b']]) 0 2 0 4 3 0 (by decide),
   by decide⟩

/-- Spec-level replaceRange semantics, written from the spec's words: lines
`start.row..=end.row` are substituted by the newline re-split of
`prefix(line[start.row], 0, start.col) + text + suffix(line[end.row],
end.col, end)`. -/
def replaceRange_spec (lines : List (List Char)) (row1 col1 row2 col2 : Nat)
    (text : List Char) : List (List Char) :=
  lines.take row1 ++
    split_nl ((lines.getD row1 []).take col1 ++ text ++
      (lines.getD row2 []).drop col2) ++
    lines.drop (row2 + 1)

/-- C2: for every buffer with valid positions whose start is at or before the
end, `set_text` replaces lines `row1..=row2` with the newline split of
`prefix(line[row1], 0, col1) + text + suffix(line[row2], col2)`. -/
theorem C2_set_text_semantics (b : Buffer) (row1 col1 row2 col2 : Nat)
    (text : List Char)
    (h1r : row1 < b.lines.length) (h1c : col1 ≤ (b.lines.getD row1 []).length)
    (h2r : row2 < b.lines.length) (h2c : col2 ≤ (b.lines.getD row2 []).length)
    (hord : row1 < row2 ∨ (row1 = row2 ∧ col1 ≤ col2)) :
    b.set_text (row1 : Int) (col1 : Int) (row2 : Int) (col2 : Int) text =
      some ⟨replaceRange_spec b.lines row1 col1 row2 col2 text⟩ := by
  unfold replaceRange_spec
  exact set_text_some b row1 col1 row2 col2 text h1r h1c h2r h2c (by omega)

/-- C2 witness: the spec scenario — on buffer `this is\na test`,
`set_text(0,5,1,1,"was\nthe")` yields lines `this was` and `the test`. -/
theorem C2_set_text_semantics_witness :
    (Buffer.init ("this is\na test").data).set_text 0 5 1 1
        (("was\nthe").data) =
      some ⟨replaceRange_spec (Buffer.init ("this is\na test").data).lines
        0 5 1 1 (("was\nthe").data)⟩ ∧
    replaceRange_spec (Buffer.init ("this is\na test").data).lines 0 5 1 1
        (("was\nthe").data) =
      [("this was").data, ("the test").data] :=
  ⟨C2_set_text_semantics _ 0 5 1 1 _ (by decide) (by decide) (by decide)
      (by decide) (Or.inl (by decide)), by decide⟩

/-- C3: a Buffer constructed from any initial text has at least one line, the
empty text gives exactly one empty line, and every `set_text` call that does
not raise preserves non-emptiness of `get_lines`. -/
theorem C3_buffer_never_empty :
    (∀ text : List Char, (Buffer.init text).get_lines ≠ []) ∧
    (Buffer.init []).get_lines = [[]] ∧
    (∀ (b b' : Buffer) (row1 col1 row2 col2 : Int) (text : List Char),
      b.set_text row1 col1 row2 col2 text = some b' →
      b'.get_lines ≠ []) := by
  refine ⟨fun text => split_nl_ne_nil text, rfl, ?_⟩
  intro b b' row1 col1 row2 col2 text h
  unfold Buffer.set_text Buffer.set_text_run at h
  by_cases h1 : b.check_point row1 col1 = true
  · by_cases h2 : b.check_point row2 col2 = true
    · simp only [h1, h2, Bool.not_true, Bool.false_eq_true, if_false,
        Option.some.injEq] at h
      subst h
      unfold Buffer.get_lines
      intro hc
      simp only [List.append_eq_nil] at hc
      exact split_nl_ne_nil _ hc.1.2
    · simp [h1, h2] at h
  · simp [h1] at h

/-- C3 witness: a one-character buffer is non-empty, and deleting its whole
content through `set_text` leaves the single empty line. -/
theorem C3_buffer_never_empty_witness :
    (Buffer.init ("a").data).get_lines ≠ [] ∧
    ((Buffer.mk [['a', 'b']]).set_text 0 0 0 2 [] = some (Buffer.mk [[]])) ∧
    (Buffer.mk [[]]).get_lines ≠ [] :=
  ⟨C3_buffer_never_empty.1 ("a").data, by decide,
   C3_buffer_never_empty.2.2 (Buffer.mk [['a', 'b']]) (Buffer.mk [[]])
     0 0 0 2 [] (by decide)⟩

/-- C6: `set_text` raises the invalid-position error exactly when one of the
two positions is invalid — some row outside `[0, lineCount)` or some col
outside `[0, len(lineAtThatRow)]`; in particular the boundary case
`col = len(line)` succeeds. -/
theorem C6_position_validation (b : Buffer) (row1 col1 row2 col2 : Int)
    (text : List Char) :
    b.set_text row1 col1 row2 col2 text = none ↔
      ¬(valid_pos b row1 col1 ∧ valid_pos b row2 col2) := by
  rw [← check_point_iff, ← check_point_iff]
  unfold Buffer.set_text Buffer.set_text_run
  by_cases h1 : b.check_point row1 col1 = true <;>
    by_cases h2 : b.check_point row2 col2 = true <;>
      simp [h1, h2]

/-- C9: when `set_text` raises, the buffer's lines are unchanged — both
positions are validated before any mutation, so the state component of
`set_text_run` is the original buffer whenever the call fails. -/
theorem C9_set_text_atomic (b : Buffer) (row1 col1 row2 col2 : Int)
    (text : List Char)
    (h : b.set_text row1 col1 row2 col2 text = none) :
    (b.set_text_run row1 col1 row2 col2 text).1.get_lines = b.get_lines := by
  unfold Buffer.set_text at h
  unfold Buffer.set_text_run at h ⊢
  by_cases h1 : b.check_point row1 col1 = true
  · by_cases h2 : b.check_point row2 col2 = true
    · simp [h1, h2] at h
    · simp [h1, h2]
  · simp [h1]

/-- C9 witness: a failing call (row 5 on a one-line buffer) leaves the lines
untouched. -/
theorem C9_set_text_atomic_witness :
    (Buffer.mk [['a']]).set_text 5 0 0 0 [] = none ∧
    ((Buffer.mk [['a']]).set_text_run 5 0 0 0 []).1.get_lines =
      (Buffer.mk [['a']]).get_lines :=
  ⟨by decide, C9_set_text_atomic (Buffer.mk [['a']]) 5 0 0 0 [] (by decide)⟩

theorem rowSum_of_le (wraps : Nat → Nat) (a b : Nat) (h : a ≤ b) :
    rowSum wraps a b = wraps a + rowSum wraps (a + 1) b := by
  unfold rowSum
  have h1 : b + 1 - a = (b - a) + 1 := by omega
  have h2 : b + 1 - (a + 1) = b - a := by omega
  rw [h1, h2]
  rfl

theorem rowSum_self (wraps : Nat → Nat) (a : Nat) :
    rowSum wraps a a = wraps a := by
  unfold rowSum
  have h1 : a + 1 - a = 1 := by omega
  rw [h1]
  simp [rowSumGo]

/-- Tightness invariant of the scroll loop: entering an iteration with
counter `m` (so `next_top = m - 1`), current `top = m`, and accumulated
`distance = rowSum (m - 1) bottom`, the loop's final `top`, when positive,
has `rowSum (top - 1) bottom > height`. -/
theorem sbttGo_tight (wraps : Nat → Nat) (height bottom : Nat) :
    ∀ m d, 1 ≤ m → m ≤ bottom + 1 → d = rowSum wraps (m - 1) bottom →
      0 < sbttGo wraps height m m d →
      height < rowSum wraps (sbttGo wraps height m m d - 1) bottom := by
  intro m
  induction m with
  | zero => intro d h1; omega
  | succ m' ih =>
    intro d h1 hle hd
    have hstep : sbttGo wraps height (m' + 1) (m' + 1) d =
        if d ≤ height then sbttGo wraps height m' m' (d + wraps (m' - 1))
        else m' + 1 := rfl
    rw [Nat.succ_sub_one] at hd
    by_cases hcond : d ≤ height
    · rw [hstep, if_pos hcond]
      rcases Nat.eq_zero_or_pos m' with hm0 | hmpos
      · subst hm0
        intro habs
        simp [sbttGo] at habs
      · apply ih (d + wraps (m' - 1)) hmpos (by omega)
        rw [rowSum_of_le wraps (m' - 1) bottom (by omega)]
        have he : m' - 1 + 1 = m' := by omega
        rw [he]
        omega
    · rw [hstep, if_neg hcond]
      intro _
      rw [Nat.succ_sub_one]
      omega

theorem scroll_bottom_to_top_le (b : Buffer) (bottom width height top : Nat)
    (h : scroll_bottom_to_top b bottom width height = some top) :
    top ≤ bottom := by
  unfold scroll_bottom_to_top at h
  set wraps := fun n => get_num_wrapped_lines b n width with hwraps
  by_cases hc : sbttGo wraps height (bottom + 1) bottom (wraps bottom) ≤
      bottom ∧
      rowSum wraps (sbttGo wraps height (bottom + 1) bottom (wraps bottom))
        bottom ≤ height
  · rw [if_pos hc] at h
    obtain rfl := Option.some.inj h
    exact hc.1
  · rw [if_neg hc] at h
    exact absurd h (by simp)

/-- C1: whenever `_scroll_bottom_to_top` returns a top line index (its
`verify` assertions pass), the wrapped-row count of lines `top..=bottom` is
at most `height`, and if `top > 0` then including line `top - 1` exceeds
`height`. -/
theorem C1_scroll_bottom_to_top_tight (b : Buffer)
    (width height bottom top : Nat) (hw : 1 ≤ width) (hh : 1 ≤ height)
    (h : scroll_bottom_to_top b bottom width height = some top) :
    rowSum (fun n => get_num_wrapped_lines b n width) top bottom ≤ height ∧
    (0 < top →
      height <
        rowSum (fun n => get_num_wrapped_lines b n width) (top - 1) bottom) := by
  unfold scroll_bottom_to_top at h
  set wraps := fun n => get_num_wrapped_lines b n width with hwraps
  by_cases hc : sbttGo wraps height (bottom + 1) bottom (wraps bottom) ≤
      bottom ∧
      rowSum wraps (sbttGo wraps height (bottom + 1) bottom (wraps bottom))
        bottom ≤ height
  · rw [if_pos hc] at h
    obtain rfl := Option.some.inj h
    refine ⟨hc.2, ?_⟩
    have hstep : sbttGo wraps height (bottom + 1) bottom (wraps bottom) =
        if wraps bottom ≤ height
        then sbttGo wraps height bottom bottom
          (wraps bottom + wraps (bottom - 1))
        else bottom := rfl
    by_cases hfit : wraps bottom ≤ height
    · rw [hstep, if_pos hfit]
      rcases Nat.eq_zero_or_pos bottom with hb0 | hbpos
      · subst hb0
        intro habs
        simp [sbttGo] at habs
      · apply sbttGo_tight wraps height bottom bottom
          (wraps bottom + wraps (bottom - 1)) hbpos (by omega)
        rw [rowSum_of_le wraps (bottom - 1) bottom (by omega)]
        have he : bottom - 1 + 1 = bottom := by omega
        rw [he, rowSum_self]
        omega
    · exfalso
      rw [hstep, if_neg hfit] at hc
      rw [rowSum_self] at hc
      exact hfit hc.2
  · rw [if_neg hc] at h
    exact absurd h (by simp)

/-- C1 witness: the spec scenario — a 20-line buffer whose lines each wrap to
one row, height 5 and bottom 19, yields top 15, which is tight. -/
theorem C1_scroll_bottom_to_top_tight_witness :
    scroll_bottom_to_top (Buffer.mk (List.replicate 20 ['a'])) 19 10 5 =
      some 15 ∧
    (rowSum (fun n =>
        get_num_wrapped_lines (Buffer.mk (List.replicate 20 ['a'])) n 10)
      15 19 ≤ 5 ∧
     (0 < 15 →
      5 < rowSum (fun n =>
          get_num_wrapped_lines (Buffer.mk (List.replicate 20 ['a'])) n 10)
        (15 - 1) 19)) :=
  ⟨by decide,
   C1_scroll_bottom_to_top_tight (Buffer.mk (List.replicate 20 ['a']))
     10 5 19 15 (by decide) (by decide) (by decide)⟩

/-- C10: whenever `_scroll_to` completes, the new scroll top is nonnegative
and at most the cursor's line number, so the cursor's logical line is never
above the viewport top. -/
theorem C10_scroll_to_bound (b : Buffer) (scroll_top : Int)
    (line_num width height : Nat) (st' : Int)
    (h0 : 0 ≤ scroll_top) (hln : line_num < b.lines.length)
    (hw : 1 ≤ width) (hh : 1 ≤ height)
    (h : scroll_to b scroll_top line_num width height = some st') :
    0 ≤ st' ∧ st' ≤ (line_num : Int) := by
  unfold scroll_to at h
  rcases he : scroll_bottom_to_top b line_num width height with _ | lowest
  · rw [he] at h
    exact absurd h (by simp)
  · rw [he] at h
    rw [Option.map_some'] at h
    have hlow : lowest ≤ line_num :=
      scroll_bottom_to_top_le b line_num width height lowest he
    obtain rfl := Option.some.inj h
    by_cases h1 : (line_num : Int) < scroll_top
    · rw [if_pos h1]
      omega
    · rw [if_neg h1]
      by_cases h2 : scroll_top < (lowest : Int)
      · rw [if_pos h2]
        constructor
        · omega
        · exact_mod_cast hlow
      · rw [if_neg h2]
        omega

/-- C10 witness: a three-line buffer with scroll top 0, cursor on line 2 and
one available row scrolls down to top 2, which is within `[0, line_num]`. -/
theorem C10_scroll_to_bound_witness :
    scroll_to (Buffer.mk [['a'], ['b'], ['c']]) 0 2 5 1 = some 2 ∧
    (0 ≤ (2 : Int) ∧ (2 : Int) ≤ ((2 : Nat) : Int)) :=
  ⟨by decide,
   C10_scroll_to_bound (Buffer.mk [['a'], ['b'], ['c']]) 0 2 5 1 2
     (by decide) (by decide) (by decide) (by decide) (by decide)⟩

/-- The span read back from a buffer between positions `(row1, col1)` and
`(row2, col2)` (the end column exclusive), as a list of line fragments: the
part of line `row1` from `col1` on, the full lines strictly between, and the
part of line `row2` before `col2`; within a single row, the slice between the
two columns. -/
def span_lines (b : Buffer) (row1 col1 row2 col2 : Nat) : List (List Char) :=
  if row1 = row2 then [((b.lines.getD row1 []).take col2).drop col1]
  else ((b.lines.getD row1 []).drop col1) ::
    (((b.lines.drop (row1 + 1)).take (row2 - row1 - 1)) ++
      [(b.lines.getD row2 []).take col2])

theorem getD_mem_of_lt (l : List (List Char)) (n : Nat) (d : List Char)
    (h : n < l.length) : l.getD n d ∈ l := by
  rw [List.getD_eq_getElem?_getD, List.getElem?_eq_getElem h]
  exact List.getElem_mem h

theorem getD_append_of_eq (pre rest : List (List Char)) (n i : Nat)
    (d : List Char) (h : pre.length + i = n) :
    (pre ++ rest).getD n d = rest.getD i d := by
  subst h
  rw [List.getD_eq_getElem?_getD, List.getD_eq_getElem?_getD,
    List.getElem?_append_right (Nat.le_add_right _ _), Nat.add_sub_cancel_left]

theorem getD_singleton_append (x : List Char) (post : List (List Char))
    (d : List Char) : ([x] ++ post).getD 0 d = x := rfl

theorem split_nl_pieces (t : List Char) : ∀ p ∈ split_nl t, '\n' ∉ p := by
  induction t with
  | nil =>
    intro p hp
    simp [split_nl] at hp
    subst hp
    simp
  | cons c cs ih =>
    intro p hp
    rw [split_nl_cons] at hp
    by_cases hc : c = '\n'
    · rw [if_pos hc] at hp
      rcases List.mem_cons.mp hp with rfl | hp2
      · simp
      · exact ih p hp2
    · rw [if_neg hc] at hp
      rcases List.mem_cons.mp hp with rfl | hp2
      · intro hmem
        rcases List.mem_cons.mp hmem with h1 | h1
        · exact hc h1.symm
        · rcases hs : split_nl cs with _ | ⟨hl, hls⟩
          · exact absurd hs (split_nl_ne_nil cs)
          · rw [hs] at h1
            exact ih hl (by rw [hs]; exact List.mem_cons_self hl hls) h1
      · exact ih p (List.mem_of_mem_tail hp2)

/-- Buffers built by `Buffer.init` have newline-free lines. -/
theorem wf_init (text : List Char) :
    ∀ l ∈ (Buffer.init text).lines, '\n' ∉ l :=
  split_nl_pieces text

/-- `set_text` keeps all lines newline-free. -/
theorem wf_set_text (b b' : Buffer) (row1 col1 row2 col2 : Int)
    (text : List Char) (hb : ∀ l ∈ b.lines, '\n' ∉ l)
    (h : b.set_text row1 col1 row2 col2 text = some b') :
    ∀ l ∈ b'.lines, '\n' ∉ l := by
  unfold Buffer.set_text Buffer.set_text_run at h
  by_cases h1 : b.check_point row1 col1 = true
  · by_cases h2 : b.check_point row2 col2 = true
    · simp only [h1, h2, Bool.not_true, Bool.false_eq_true, if_false,
        Option.some.injEq] at h
      subst h
      intro l hl
      rcases List.mem_append.mp hl with hl1 | hl2
      · rcases List.mem_append.mp hl1 with hl3 | hl4
        · exact hb l (List.take_subset _ _ hl3)
        · exact split_nl_pieces _ l hl4
      · exact hb l (List.drop_subset _ _ hl2)
    · simp [h1, h2] at h
  · simp [h1] at h

/-- C7: round-trip — after a valid `set_text` whose start is at or before its
end, reading back the affected span, from `(row1, col1)` through the end of
the inserted content, yields exactly `text` split on newlines. -/
theorem C7_set_text_roundtrip (b : Buffer) (row1 col1 row2 col2 : Nat)
    (text : List Char) (b' : Buffer)
    (hwf : ∀ l ∈ b.lines, '\n' ∉ l)
    (h1r : row1 < b.lines.length) (h1c : col1 ≤ (b.lines.getD row1 []).length)
    (h2r : row2 < b.lines.length) (h2c : col2 ≤ (b.lines.getD row2 []).length)
    (hord : row1 < row2 ∨ (row1 = row2 ∧ col1 ≤ col2))
    (h : b.set_text (row1 : Int) (col1 : Int) (row2 : Int) (col2 : Int) text
      = some b') :
    span_lines b' row1 col1 (row1 + ((split_nl text).length - 1))
      ((if (split_nl text).length = 1 then col1 else 0) +
        ((split_nl text).getLastD []).length) = split_nl text := by
  rw [set_text_some b row1 col1 row2 col2 text h1r h1c h2r h2c (by omega)] at h
  obtain rfl := Option.some.inj h
  set line1 := b.lines.getD row1 [] with hline1
  set line2 := b.lines.getD row2 [] with hline2
  have hpre : '\n' ∉ line1.take col1 := fun hm =>
    hwf line1 (getD_mem_of_lt _ _ _ h1r) (List.take_subset _ _ hm)
  have hsuf : '\n' ∉ line2.drop col2 := fun hm =>
    hwf line2 (getD_mem_of_lt _ _ _ h2r) (List.drop_subset _ _ hm)
  have hpreLen : (b.lines.take row1).length = row1 := by
    rw [List.length_take]; omega
  have hpcLen : (line1.take col1).length = col1 := by
    rw [List.length_take]; omega
  have hblock : split_nl (line1.take col1 ++ text ++ line2.drop col2) =
      (line1.take col1 ++ (split_nl (text ++ line2.drop col2)).headI) ::
        (split_nl (text ++ line2.drop col2)).tail := by
    rw [List.append_assoc]
    exact split_nl_append_left _ _ hpre
  have hright := split_nl_append_right text (line2.drop col2) hsuf
  rcases hts : split_nl text with _ | ⟨t0, rest⟩
  · exact absurd hts (split_nl_ne_nil text)
  rw [hts] at hright
  rcases rest with _ | ⟨r1, rs⟩
  · -- text splits into a single piece t0
    rw [List.dropLast_single, List.getLastD_cons, List.getLastD_nil,
      List.nil_append] at hright
    rw [hright] at hblock
    simp only [List.headI_cons, List.tail_cons] at hblock
    rw [show (t0 :: ([] : List (List Char))).length = 1 from rfl,
      show (1 : Nat) - 1 = 0 from rfl,
      show row1 + 0 = row1 from Nat.add_zero row1, if_pos rfl,
      List.getLastD_cons, List.getLastD_nil]
    unfold span_lines
    rw [if_pos rfl]
    dsimp only
    rw [hblock, List.append_assoc]
    rw [getD_append_of_eq _ _ row1 0 [] (by omega), List.cons_append,
      List.getD_cons_zero]
    rw [show col1 + t0.length = (line1.take col1).length + t0.length from
      by rw [hpcLen], List.take_append, List.take_left]
    rw [List.drop_left' hpcLen]
  · -- text splits into at least two pieces
    rw [List.dropLast_cons₂, List.getLastD_cons, List.cons_append] at hright
    rw [hright] at hblock
    simp only [List.headI_cons, List.tail_cons] at hblock
    rw [List.getLastD_cons]
    rw [show (t0 :: r1 :: rs).length = rs.length + 2 from by
      simp [List.length_cons], show rs.length + 2 - 1 = rs.length + 1 from
      by omega, if_neg (by omega),
      show 0 + ((r1 :: rs).getLastD t0).length =
        ((r1 :: rs).getLastD t0).length from Nat.zero_add _]
    unfold span_lines
    rw [if_neg (by omega)]
    dsimp only
    rw [hblock, List.append_assoc, List.cons_append]
    rw [getD_append_of_eq _ _ row1 0 [] (by omega), List.getD_cons_zero]
    rw [getD_append_of_eq _ _ (row1 + (rs.length + 1)) (rs.length + 1) []
      (by omega), List.getD_cons_succ]
    rw [show row1 + 1 = (b.lines.take row1).length + 1 from by omega,
      List.drop_append, List.drop_one, List.tail_cons]
    rw [show row1 + (rs.length + 1) - row1 - 1 = rs.length from by omega]
    rw [List.append_assoc]
    have hdl : ((r1 :: rs).dropLast).length = rs.length := by
      rw [List.length_dropLast]; rfl
    rw [List.take_left' hdl]
    rw [getD_append_of_eq _ _ rs.length 0 [] (by omega),
      getD_singleton_append]
    rw [List.take_left]
    rw [List.drop_left' hpcLen]
    have hlast : (r1 :: rs).getLastD t0 =
        (r1 :: rs).getLast (List.cons_ne_nil r1 rs) := by
      rw [List.getLastD_eq_getLast?,
        List.getLast?_eq_getLast (r1 :: rs) (List.cons_ne_nil r1 rs)]
      rfl
    rw [hlast, List.dropLast_append_getLast]

/-- C7 witness: replacing `(0,5)..(1,1)` of `this is\na test` with
`was\nthe` and reading the affected span back gives `was` and `the`. -/
theorem C7_set_text_roundtrip_witness :
    (Buffer.init ("this is\na test").data).set_text 0 5 1 1
        (("was\nthe").data) =
      some (Buffer.mk [("this was").data, ("the test").data]) ∧
    span_lines (Buffer.mk [("this was").data, ("the test").data]) 0 5
      (0 + ((split_nl ("was\nthe").data).length - 1))
      ((if (split_nl ("was\nthe").data).length = 1 then 5 else 0) +
        ((split_nl ("was\nthe").data).getLastD []).length) =
      split_nl ("was\nthe").data :=
  ⟨by decide,
   C7_set_text_roundtrip (Buffer.init ("this is\na test").data) 0 5 1 1
     (("was\nthe").data) (Buffer.mk [("this was").data, ("the test").data])
     (by decide) (by decide) (by decide) (by decide) (by decide)
     (Or.inl (by decide)) (by decide)⟩

end Editor
